import Mathlib

/-!
Verification of the log-analysis pipeline (parser + analyzer).

The Python sources `log_parser.py` and `log_analyzer.py` are shallowly
embedded below.  Conventions of the embedding:

* Python strings are `String` (operated on through `List Char`); the ASCII
  fragments of `str.lower`, `str.upper`, `str.strip` and the regex classes
  `\s`, `\d`, `[A-F0-9]` are modelled character-wise.
* `datetime` values are epoch seconds (`Int`); `isinstance(x, datetime)`
  failure is modelled by `Option.none`.
* Python `float` arithmetic is modelled by exact fractions (`PyFloat`
  below): a numerator/denominator pair without normalisation, so that all
  operations are plain integer arithmetic and evaluate inside the kernel.
* the Python salted built-in `str` hash (used as `str(hash(normalized))`) is
  not a deterministic function across runs; following how the spec own
  reading ("the hash is a stand-in for exact-match equality of the
  normalized form") it is modelled by the normalized string itself, an
  injective stand-in.
-/

/-- ASCII model of Python whitespace: the regex class `\s` and the
characters stripped by `str.strip` / split on by `str.split`. -/
def pyIsSpace (c : Char) : Bool :=
  c = ' ' || c = '\t' || c = '\n' || c = '\r' || c = '\x0b' || c = '\x0c'

/-- The regex class `\d` (ASCII digits). -/
def isAsciiDigit (c : Char) : Bool :=
  '0' ≤ c && c ≤ '9'

/-- The regex class `[A-F0-9]` under `re.IGNORECASE`. -/
def isHexChar (c : Char) : Bool :=
  isAsciiDigit c || ('A' ≤ c && c ≤ 'F') || ('a' ≤ c && c ≤ 'f')

/-- ASCII model of `str.lower`. -/
def pyLower (s : String) : String :=
  String.mk (s.data.map Char.toLower)

/-- ASCII model of `str.upper`. -/
def pyUpper (s : String) : String :=
  String.mk (s.data.map Char.toUpper)

/-- `str.strip` on character lists: drop leading and trailing whitespace. -/
def stripChars (l : List Char) : List Char :=
  ((l.dropWhile pyIsSpace).reverse.dropWhile pyIsSpace).reverse

/-- `str.strip`. -/
def pyStrip (s : String) : String :=
  String.mk (stripChars s.data)

/-- Python substring test `needle in hay` on character lists. -/
def containsSeq (needle : List Char) : List Char → Bool
  | [] => needle.isEmpty
  | c :: t => needle.isPrefixOf (c :: t) || containsSeq needle t

/-- Python substring test `sub in hay` on strings. -/
def pyContains (hay sub : String) : Bool :=
  containsSeq sub.data hay.data

/-- `str.split()`: split on whitespace runs, discarding empty words. -/
def pySplitWs (l : List Char) : List (List Char) :=
  (l.splitOnP pyIsSpace).filter (· ≠ [])

/-- `' '.join(words)`. -/
def joinSpace (ws : List (List Char)) : List Char :=
  List.intercalate [' '] ws

/-- `LogParser.ERROR_KEYWORDS`. -/
def ERROR_KEYWORDS : List String :=
  ["error", "err", "failed", "failure", "exception", "critical", "fatal",
   "panic", "denied", "refused", "timeout", "corrupt", "invalid",
   "не вдалося", "помилка", "збій", "відмова", "заборонено"]

/-- `LogParser.WARNING_KEYWORDS`. -/
def WARNING_KEYWORDS : List String :=
  ["warning", "warn", "deprecated", "obsolete", "retry", "slow",
   "попередження", "застаріло", "повільно"]

/-- First cleanup pattern: `re.sub(r"\s+", " ", s)` — replace every maximal
run of whitespace by one space.  Written structurally so it evaluates in
the kernel. -/
def collapseWs : List Char → List Char
  | [] => []
  | [c] => if pyIsSpace c then [' '] else [c]
  | c1 :: c2 :: cs =>
    if pyIsSpace c1 then
      if pyIsSpace c2 then collapseWs (c2 :: cs)
      else ' ' :: collapseWs (c2 :: cs)
    else c1 :: collapseWs (c2 :: cs)

/-- Matcher for the second cleanup pattern `^\s*\[\d+\.\d+\]\s*`: on a
match, return the remainder of the string after the matched head; all the
quantifiers are greedy and (since none of the bordering literals belong to
the repeated classes) the greedy parse is the only possible one. -/
def matchTsHead (l : List Char) : Option (List Char) :=
  match l.dropWhile pyIsSpace with
  | '[' :: r =>
    if (r.takeWhile isAsciiDigit) = [] then none
    else
      match r.dropWhile isAsciiDigit with
      | '.' :: r2 =>
        if (r2.takeWhile isAsciiDigit) = [] then none
        else
          match r2.dropWhile isAsciiDigit with
          | ']' :: r4 => some (r4.dropWhile pyIsSpace)
          | _ => none
      | _ => none
  | _ => none

/-- Second cleanup pattern: `re.sub` of the anchored timestamp regex with empty text.  The
pattern is anchored, so at most one replacement happens. -/
def stripTsHead (l : List Char) : List Char :=
  (matchTsHead l).getD l

/-- Third cleanup pattern: `re.sub` of the anchored angle-bracket regex with empty text. -/
def stripAngleHead (l : List Char) : List Char :=
  match l with
  | [] => []
  | c :: cs =>
    if c = '<' || c = '>' then
      ((c :: cs).dropWhile (fun d => d = '<' || d = '>')).dropWhile pyIsSpace
    else c :: cs

/-- `LogParser._clean_message` on character lists: the three
`CLEANUP_PATTERNS` in order, then `str.strip`. -/
def cleanChars (l : List Char) : List Char :=
  stripChars (stripAngleHead (stripTsHead (collapseWs l)))

/-- `LogParser._clean_message`. -/
def clean_message (message : String) : String :=
  String.mk (cleanChars message.data)

/-- One step of `re.sub` of the variable-token regex with placeholder text
(ignore-case), written as a scanner.  The second argument is the number of
already-matched characters still to be skipped.  At each fresh position the
regex alternatives are tried in order: `\d+` first (so at any digit the
digit-run branch wins — in particular the final `0x[A-F0-9]+` alternative
is unreachable, since a literal `0` is a digit), then `/[^\s]*`, then
`[A-F0-9]{8,}`. -/
def hashSubAux : List Char → Nat → List Char
  | [], _ => []
  | _ :: cs, n + 1 => hashSubAux cs n
  | c :: cs, 0 =>
    if isAsciiDigit c then
      '{' :: '}' :: hashSubAux cs (cs.takeWhile isAsciiDigit).length
    else if c = '/' then
      '{' :: '}' :: hashSubAux cs (cs.takeWhile (fun d => !pyIsSpace d)).length
    else if isHexChar c && (cs.takeWhile isHexChar).length + 1 ≥ 8 then
      '{' :: '}' :: hashSubAux cs (cs.takeWhile isHexChar).length
    else c :: hashSubAux cs 0

/-- The variable-part substitution of `LogParser._generate_message_hash`. -/
def hashSub (l : List Char) : List Char :=
  hashSubAux l 0

/-- The normalized text hashed by `LogParser._generate_message_hash`:
substitute variable parts, lowercase, collapse whitespace
(`' '.join(normalized.lower().split())`). -/
def hashNormalize (message : String) : String :=
  String.mk (joinSpace (pySplitWs ((hashSub message.data).map Char.toLower)))

/-- `LogParser._generate_message_hash`.  `str(hash(normalized))` is
modelled by the normalized string itself (see the header note: Python's
salted string hash is a per-run function of exactly this string). -/
def generate_message_hash (message : String) : String :=
  hashNormalize message

-- Sanity checks against hand-evaluated Python behaviour.
example : clean_message "  [123.45]   <<  error   here " = "error here" := by decide
example : hashNormalize "Disk 12 full at /var/log FFFFAAAA99" =
    String.mk ('d' :: 'i' :: 's' :: 'k' :: ' ' :: '{' :: '}' :: ' ' :: 'f' :: 'u' :: 'l' :: 'l' ::
      ' ' :: 'a' :: 't' :: ' ' :: '{' :: '}' :: ' ' :: '{' :: '}' :: []) := by decide

/-- A raw record as handed to `LogParser.parse_logs`.  `timestamp` is
`none` when the value is not a `datetime` instance; `message` is
`str(log_entry.get('message', ''))`; absent optional keys are `none`.
The opaque `raw_data` payload is carried through unchanged by the code and
is omitted here. -/
structure RawRecord where
  timestamp : Option Int
  message : String
  level : Option String
  source : Option String
  pid : Option Int
  hostname : Option String
  user : Option String
  event_id : Option Int
  category : Option String
  log_source : Option String
  unit : Option String
  computer : Option String
deriving DecidableEq

/-- The canonical record built by `LogParser._normalize_log_entry`. -/
structure CanonicalRecord where
  timestamp : Int
  level : String
  source : String
  message : String
  original_message : String
  pid : Option Int
  hostname : Option String
  user : Option String
  event_id : Option Int
  category : Option String
  log_source : String
  unit : Option String
  computer : Option String
deriving DecidableEq

/-- `LogParser._normalize_log_entry`: requires a `datetime` timestamp and
a non-empty stripped message, else the record is unusable (`none`). -/
def normalize_log_entry (e : RawRecord) : Option CanonicalRecord :=
  match e.timestamp with
  | none => none
  | some ts =>
    let message := pyStrip e.message
    if message = "" then none
    else some
      { timestamp := ts
        level := pyUpper (e.level.getD "INFO")
        source := e.source.getD "Unknown"
        message := clean_message message
        original_message := message
        pid := e.pid
        hostname := e.hostname
        user := e.user
        event_id := e.event_id
        category := e.category
        log_source := e.log_source.getD "Unknown"
        unit := e.unit
        computer := e.computer }

/-- The filter state of a constructed `LogParser` (its three keyword
attributes, exactly as read by `_should_include_log`). -/
structure LogFilterCfg where
  filter_levels : List String
  include_keywords : List String
  exclude_keywords : List String
deriving DecidableEq

/-- Python `x or default` on optional list arguments: `None` and the empty
list are both falsy and select the default. -/
def orDefault (x : Option (List String)) (d : List String) : List String :=
  match x with
  | none => d
  | some l => if l = [] then d else l

/-- `LogParser.__init__`: defaulted filter levels, include keywords merged
with the built-in error and warning keyword lists. -/
def mkLogFilterCfg (filter_levels include_keywords exclude_keywords :
    Option (List String)) : LogFilterCfg :=
  { filter_levels := orDefault filter_levels ["ERROR", "CRITICAL", "WARNING"]
    include_keywords :=
      (match include_keywords with | none => [] | some l => l)
        ++ ERROR_KEYWORDS ++ WARNING_KEYWORDS
    exclude_keywords := match exclude_keywords with | none => [] | some l => l }

/-- The level check of `_should_include_log` (its first `if`): a record
whose level is outside `filter_levels` survives only when its lower-cased
message contains some built-in error keyword. -/
def passes_level_check (cfg : LogFilterCfg) (level message : String) : Bool :=
  decide (level ∈ cfg.filter_levels)
    || ERROR_KEYWORDS.any (fun kw => pyContains (pyLower message) (pyLower kw))

/-- The exclude check of `_should_include_log` (its second `if`). -/
def hits_exclude (cfg : LogFilterCfg) (message : String) : Bool :=
  cfg.exclude_keywords.any (fun kw => pyContains (pyLower message) (pyLower kw))

/-- The include-keyword match of `_should_include_log` (its third `if`). -/
def hits_include (cfg : LogFilterCfg) (message : String) : Bool :=
  cfg.include_keywords.any (fun kw => pyContains (pyLower message) (pyLower kw))

/-- `LogParser._should_include_log`: level check, then exclude keywords
(reject), then include keywords (reject unless level is ERROR/CRITICAL). -/
def should_include_log (cfg : LogFilterCfg) (entry : CanonicalRecord) : Bool :=
  let level := entry.level
  if !passes_level_check cfg level entry.message then false
  else if hits_exclude cfg entry.message then false
  else if !cfg.include_keywords.isEmpty && !hits_include cfg entry.message
      && !(level = "ERROR" || level = "CRITICAL") then false
  else true

/-- `LogParser._classify_error_type`: first matching category wins. -/
def classify_error_type (message : String) : String :=
  let m := pyLower message
  if ["network", "connection", "timeout", "socket", "dns"].any
      (fun w => pyContains m w) then "Мережева помилка"
  else if ["file", "directory", "disk", "space", "permission"].any
      (fun w => pyContains m w) then "Помилка файлової системи"
  else if ["auth", "login", "password", "denied", "forbidden"].any
      (fun w => pyContains m w) then "Помилка автентифікації"
  else if ["application", "service", "process", "crash"].any
      (fun w => pyContains m w) then "Помилка програми"
  else if ["system", "kernel", "driver", "hardware"].any
      (fun w => pyContains m w) then "Системна помилка"
  else "Загальна помилка"

/-- The per-level base scores of `_calculate_severity_score`
(`level_scores.get(level, 20)`). -/
def level_base_score (level : String) : Nat :=
  if level = "CRITICAL" then 90
  else if level = "ERROR" then 70
  else if level = "WARNING" then 40
  else if level = "INFO" then 20
  else if level = "DEBUG" then 10
  else 20

/-- The critical keyword list of `_calculate_severity_score`. -/
def criticalSeverityKeywords : List String :=
  ["critical", "fatal", "panic", "crash", "corruption"]

/-- `LogParser._calculate_severity_score`: base score by level plus 10 per
critical keyword contained in the lower-cased message, capped at 100. -/
def calculate_severity_score (level message : String) : Nat :=
  let m := pyLower message
  let score := criticalSeverityKeywords.foldl
    (fun s kw => if pyContains m kw then s + 10 else s) (level_base_score level)
  min score 100

/-- The technical-phrase dictionary of `_simplify_message`, in insertion
(= iteration) order. -/
def simplifyReplacements : List (String × String) :=
  [("authentication failed", "не вдалося увійти в систему"),
   ("connection timeout", "перевищено час очікування з\x27єднання"),
   ("permission denied", "недостатньо прав доступу"),
   ("file not found", "файл не знайдено"),
   ("disk full", "диск заповнений"),
   ("service failed", "служба не працює"),
   ("network unreachable", "мережа недоступна"),
   ("out of memory", "недостатньо пам\x27яті"),
   ("invalid request", "неправильний запит"),
   ("access denied", "доступ заборонено")]

/-- `str.replace(old, new)`: replace all non-overlapping occurrences left
to right.  The second `Nat` argument counts already-matched characters
still to be dropped.  (The guard against an empty `old` is unreachable:
every key of the dictionary above is non-empty.) -/
def replaceAux (old new : List Char) : List Char → Nat → List Char
  | [], _ => []
  | _ :: cs, n + 1 => replaceAux old new cs n
  | c :: cs, 0 =>
    if old.isPrefixOf (c :: cs) && !old.isEmpty then
      new ++ replaceAux old new cs (old.length - 1)
    else c :: replaceAux old new cs 0

/-- `str.replace` on strings. -/
def pyReplace (s old new : String) : String :=
  String.mk (replaceAux old.data new.data s.data 0)

/-- ASCII model of `str.capitalize`: first character upper-cased, the rest
lower-cased. -/
def pyCapitalize (s : String) : String :=
  match s.data with
  | [] => ""
  | c :: cs => String.mk (Char.toUpper c :: cs.map Char.toLower)

/-- `LogParser._simplify_message`: lowercase, apply the replacement
dictionary in order, truncate to 147 chars plus an ellipsis when longer
than 150, capitalize. -/
def simplify_message (message : String) : String :=
  let s := simplifyReplacements.foldl
    (fun acc p => pyReplace acc p.1 p.2) (pyLower message)
  let s := if s.length > 150 then String.mk (s.data.take 147 ++ ['.', '.', '.']) else s
  pyCapitalize s

/-- The enriched record produced by `LogParser._process_log_entry`. -/
structure EnrichedRecord extends CanonicalRecord where
  message_hash : String
  error_type : String
  severity_score : Nat
  simplified_message : String
deriving DecidableEq

/-- `LogParser._process_log_entry`: always succeeds, adding the four
enrichment fields computed from the cleaned message. -/
def process_log_entry (e : CanonicalRecord) : EnrichedRecord :=
  { e with
    message_hash := generate_message_hash e.message
    error_type := classify_error_type e.message
    severity_score := calculate_severity_score e.level e.message
    simplified_message := simplify_message e.message }

/-- The per-record body of the `parse_logs` loop: normalize, filter,
enrich; `none` when the record is dropped.  (`_process_log_entry` always
returns a non-empty dict, so the final `if processed_entry` check in the
source always passes.) -/
def parse_one (cfg : LogFilterCfg) (raw : RawRecord) : Option EnrichedRecord :=
  match normalize_log_entry raw with
  | none => none
  | some ne => if should_include_log cfg ne then some (process_log_entry ne) else none

/-- `LogParser.parse_logs`: fold the per-record body over the batch,
appending the survivors in order. -/
def parse_logs (cfg : LogFilterCfg) : List RawRecord → List EnrichedRecord
  | [] => []
  | r :: rs =>
    match parse_one cfg r with
    | some e => e :: parse_logs cfg rs
    | none => parse_logs cfg rs

-- Sanity: spec end-to-end scenario 1 — a default-policy parser drops an
-- INFO record with no error keywords.
example :
    parse_logs (mkLogFilterCfg none none none)
      [{ timestamp := some 0, message := "System health check completed successfully",
         level := some "INFO", source := none, pid := none, hostname := none,
         user := none, event_id := none, category := none, log_source := none,
         unit := none, computer := none }] = [] := by decide

/-- Exact-fraction model of Python `float` arithmetic as used by the
analyzer: a numerator over a positive denominator, never normalised, so
every operation is plain integer arithmetic and reduces in the kernel.
(The analyzer's float expressions are ratios of small integers; the only
non-representable literals are `1.2` and `0.8`, modelled exactly.) -/
structure PyFloat where
  num : Int
  den : Nat
deriving DecidableEq

def PyFloat.ofInt (n : Int) : PyFloat := ⟨n, 1⟩

def PyFloat.ofNat (n : Nat) : PyFloat := ⟨n, 1⟩

def PyFloat.add (x y : PyFloat) : PyFloat :=
  ⟨x.num * y.den + y.num * x.den, x.den * y.den⟩

def PyFloat.mul (x y : PyFloat) : PyFloat :=
  ⟨x.num * y.num, x.den * y.den⟩

/-- Division; the zero-divisor branch is unreachable in the modelled code
(denominators there are `max(1, …)` or at least 3600). -/
def PyFloat.div (x y : PyFloat) : PyFloat :=
  if y.num = 0 then ⟨0, 1⟩
  else if 0 < y.num then ⟨x.num * y.den, x.den * y.num.toNat⟩
  else ⟨-(x.num * y.den), x.den * (-y.num).toNat⟩

def PyFloat.lt (x y : PyFloat) : Bool :=
  x.num * y.den < y.num * x.den

/-- Python `max(x, y)` (keeps the first argument on ties). -/
def PyFloat.max2 (x y : PyFloat) : PyFloat :=
  if PyFloat.lt x y then y else x

/-- Float floor division `x // y` composed with `int(·)` (exact on the
integral result of `//`). -/
def PyFloat.floor (x : PyFloat) : Int :=
  x.num.ediv x.den

/-- `sum(xs)` (starts from integer 0, adds left to right). -/
def PyFloat.sum (l : List PyFloat) : PyFloat :=
  l.foldl PyFloat.add (PyFloat.ofNat 0)

/-- Value of a `PyFloat` as a rational, for abstract reasoning. -/
def PyFloat.toRat (x : PyFloat) : ℚ :=
  (x.num : ℚ) / (x.den : ℚ)

/-- `round(x, 2)` modelled as exact half-to-even rounding at two decimal
places of the exact rational value. -/
def PyFloat.roundHalfEven (x : PyFloat) : Int :=
  let f := x.num.ediv x.den
  let twice := 2 * x.num - 2 * f * (x.den : Int)
  if twice < (x.den : Int) then f
  else if (x.den : Int) < twice then f + 1
  else if f % 2 = 0 then f else f + 1

def pyRound2 (x : PyFloat) : PyFloat :=
  ⟨PyFloat.roundHalfEven (x.mul ⟨100, 1⟩), 100⟩

/-- Stable insertion into a stably sorted list: `after x y = true` when
`x` must be placed strictly after `y`; where neither element must follow
the other, the original order is kept. -/
def stableInsert (after : α → α → Bool) (x : α) : List α → List α
  | [] => [x]
  | y :: ys => if after x y then y :: stableInsert after x ys else x :: y :: ys

/-- Stable sort.  For a strict weak order the output of a stable sort is
uniquely determined by the order relation and the input order, so this
models the Python stable `list.sort` / `sorted` (with `reverse=True`
expressed through the `after` relation). -/
def stableSort (after : α → α → Bool) : List α → List α
  | [] => []
  | x :: xs => stableInsert after x (stableSort after xs)

/-- Strict lexicographic order on `(count, severity)` pairs — Python's
tuple `<`. -/
def lexLtNN (x y : Nat × Nat) : Bool :=
  x.1 < y.1 || (x.1 = y.1 && x.2 < y.2)

/-- `log["level"] in ["ERROR", "CRITICAL"]`. -/
def isErrorLevel (level : String) : Bool :=
  level = "ERROR" || level = "CRITICAL"

/-- `min` of a list of timestamps (`min(timestamps)`; the empty case is
unreachable in the analyzer, which guards against empty inputs). -/
def listMinInt : List Int → Int
  | [] => 0
  | x :: xs => xs.foldl min x

/-- `max` of a list of timestamps. -/
def listMaxInt : List Int → Int
  | [] => 0
  | x :: xs => xs.foldl max x

/-- The keys of a Python dict built by repeated insertion, in first-
occurrence order (dicts preserve insertion order). -/
def distinctInOrder [DecidableEq α] (l : List α) : List α :=
  l.foldl (fun acc x => if x ∈ acc then acc else acc ++ [x]) []

/-- `Counter(xs).items()`: first-occurrence-ordered keys with counts. -/
def countItems [DecidableEq α] (l : List α) : List (α × Nat) :=
  (distinctInOrder l).map (fun x => (x, l.count x))

/-- `after` relation for `Counter.most_common` and other analyzer
count-descending sorts. -/
def countAfter (a b : α × Nat) : Bool :=
  a.2 < b.2

/-- One entry of the `top_errors` list built by
`LogAnalyzer._analyze_errors`.  (The `.get(…, default)` reads for
`simplified_message`, `error_type` and `severity_score` always find the
field on an enriched record.) -/
structure ErrorGroupEntry where
  message : String
  simplified_message : String
  count : Nat
  level : String
  source : String
  error_type : String
  severity_score : Nat
  first_occurrence : Int
  last_occurrence : Int
  affected_hosts : Nat
  frequency_per_hour : PyFloat
deriving DecidableEq

/-- The group entry for a non-empty error group, from its representative
(first member) and full member list. -/
def mkErrorGroupEntry (rep : EnrichedRecord) (grp : List EnrichedRecord) :
    ErrorGroupEntry :=
  let timestamps := grp.map (·.timestamp)
  let first := listMinInt timestamps
  let last := listMaxInt timestamps
  { message := rep.message
    simplified_message := rep.simplified_message
    count := grp.length
    level := rep.level
    source := rep.source
    error_type := rep.error_type
    severity_score := rep.severity_score
    first_occurrence := first
    last_occurrence := last
    affected_hosts :=
      (distinctInOrder (grp.map (fun e => e.hostname.getD "unknown"))).length
    frequency_per_hour :=
      PyFloat.div (PyFloat.ofNat grp.length)
        (PyFloat.max2 (PyFloat.ofNat 1)
          (PyFloat.div (PyFloat.ofInt (last - first)) (PyFloat.ofNat 3600))) }

/-- The grouping keys of `error_groups` (a `defaultdict` filled by
appending), in first-occurrence order. -/
def errorGroupKeys (error_logs : List EnrichedRecord) : List String :=
  distinctInOrder (error_logs.map (·.message_hash))

/-- The member list of one error group, in input order. -/
def errorGroupOf (error_logs : List EnrichedRecord) (h : String) :
    List EnrichedRecord :=
  error_logs.filter (fun e => e.message_hash = h)

/-- The unsorted `top_errors` list, one entry per group in first-
occurrence order (`if not error_list: continue` skips empty groups —
unreachable, since every key comes from a member). -/
def errorEntries (error_logs : List EnrichedRecord) : List ErrorGroupEntry :=
  (errorGroupKeys error_logs).filterMap (fun h =>
    match errorGroupOf error_logs h with
    | [] => none
    | rep :: rest => some (mkErrorGroupEntry rep (rep :: rest)))

/-- The sort key of `top_errors.sort(key=…, reverse=True)`. -/
def errEntryKey (e : ErrorGroupEntry) : Nat × Nat :=
  (e.count, e.severity_score)

/-- The `after` relation realising that reverse sort: an entry goes after
another exactly when its `(count, severity)` key is strictly smaller. -/
def errAfter (a b : ErrorGroupEntry) : Bool :=
  lexLtNN (errEntryKey a) (errEntryKey b)

/-- `logs` restricted to ERROR/CRITICAL records. -/
def errorLogsOf (logs : List EnrichedRecord) : List EnrichedRecord :=
  logs.filter (fun l => isErrorLevel l.level)

/-- The fully sorted `top_errors` list (before the `[:top_n]` slice). -/
def sortedErrorEntries (logs : List EnrichedRecord) : List ErrorGroupEntry :=
  stableSort errAfter (errorEntries (errorLogsOf logs))

/-- Result shape of `_analyze_errors`: the no-errors branch returns a
differently-keyed dict. -/
inductive ErrorStats where
  | noErrors
  | stats (top_errors : List ErrorGroupEntry) (total_errors : Nat)
      (unique_error_patterns : Nat) (most_frequent_error : Option ErrorGroupEntry)
deriving DecidableEq

/-- `LogAnalyzer._analyze_errors`. -/
def analyze_errors (logs : List EnrichedRecord) (top_n : Nat) : ErrorStats :=
  let error_logs := errorLogsOf logs
  if error_logs.isEmpty then ErrorStats.noErrors
  else
    let sorted := stableSort errAfter (errorEntries error_logs)
    ErrorStats.stats (sorted.take top_n) error_logs.length
      (errorGroupKeys error_logs).length sorted.head?

/-- Trend direction strings of `_analyze_trends` (stable, growing,
declining — the Ukrainian literals of the source). -/
inductive TrendDirection where
  | stable
  | growing
  | declining
deriving DecidableEq

/-- Result shape of `_analyze_trends`; the three degenerate branches
return differently-keyed dicts.  A full report carries the direction, the
number of periods, the two rounded percentage averages and the per-period
`(key, total, errors)` data. -/
inductive TrendResult where
  | empty
  | insufficientData
  | insufficientPeriods
  | report (trend_direction : TrendDirection) (periods_analyzed : Nat)
      (avg_first_pct avg_second_pct : PyFloat)
      (period_data : List (Int × Nat × Nat))
deriving DecidableEq

/-- `period_minutes = max(60, total_duration.total_seconds() / 100)` —
note: seconds divided by 100, used as minutes. -/
def periodMinutes (total_seconds : Int) : PyFloat :=
  PyFloat.max2 (PyFloat.ofNat 60)
    (PyFloat.div (PyFloat.ofInt total_seconds) (PyFloat.ofNat 100))

/-- `int` of `log["timestamp"].timestamp() // (period_minutes * 60)`. -/
def periodKeyOf (pm : PyFloat) (t : Int) : Int :=
  PyFloat.floor (PyFloat.div (PyFloat.ofInt t) (pm.mul (PyFloat.ofNat 60)))

/-- The sorted distinct period keys of `_analyze_trends`
(`sorted(periods.items())` orders the distinct integer keys ascending). -/
def trendKeysSorted (logs : List EnrichedRecord) (pm : PyFloat) : List Int :=
  stableSort (fun a b : Int => decide (a < b))
    (distinctInOrder (logs.map (fun l => periodKeyOf pm l.timestamp)))

/-- `period_items`: per period key, the key with its total and error
counts accumulated over the batch. -/
def trendPeriodItems (logs : List EnrichedRecord) (pm : PyFloat) :
    List (Int × Nat × Nat) :=
  (trendKeysSorted logs pm).map (fun k =>
    (k, (logs.filter (fun l => periodKeyOf pm l.timestamp == k)).length,
      (logs.filter (fun l =>
        periodKeyOf pm l.timestamp == k && isErrorLevel l.level)).length))

/-- The per-period error rate `errors / max(1, total)`. -/
def trendRate (it : Int × Nat × Nat) : PyFloat :=
  PyFloat.div (PyFloat.ofNat it.2.2) (PyFloat.ofNat (max 1 it.2.1))

/-- `error_rates`. -/
def trendRates (items : List (Int × Nat × Nat)) : List PyFloat :=
  items.map trendRate

/-- `first_half = error_rates[:len(error_rates)//2]`. -/
def trendFirstHalf (items : List (Int × Nat × Nat)) : List PyFloat :=
  (trendRates items).take ((trendRates items).length / 2)

/-- `second_half = error_rates[len(error_rates)//2:]`. -/
def trendSecondHalf (items : List (Int × Nat × Nat)) : List PyFloat :=
  (trendRates items).drop ((trendRates items).length / 2)

/-- `sum(half) / len(half) if half else 0`. -/
def trendAvg (l : List PyFloat) : PyFloat :=
  if l.isEmpty then PyFloat.ofNat 0
  else PyFloat.div (PyFloat.sum l) (PyFloat.ofNat l.length)

/-- The growing / declining / stable decision against the 1.2 and 0.8
thresholds (float literals modelled as exact fractions). -/
def trendDirectionOf (items : List (Int × Nat × Nat)) : TrendDirection :=
  if PyFloat.lt ((trendAvg (trendFirstHalf items)).mul ⟨12, 10⟩)
      (trendAvg (trendSecondHalf items)) then TrendDirection.growing
  else if PyFloat.lt (trendAvg (trendSecondHalf items))
      ((trendAvg (trendFirstHalf items)).mul ⟨8, 10⟩) then TrendDirection.declining
  else TrendDirection.stable

/-- The tail of `_analyze_trends` after the periods are accumulated:
require at least 3 periods, split the rate list in half, compare the two
half averages. -/
def trendFromItems (items : List (Int × Nat × Nat)) : TrendResult :=
  if items.length < 3 then TrendResult.insufficientPeriods
  else
    TrendResult.report (trendDirectionOf items) items.length
      (pyRound2 ((trendAvg (trendFirstHalf items)).mul (PyFloat.ofNat 100)))
      (pyRound2 ((trendAvg (trendSecondHalf items)).mul (PyFloat.ofNat 100)))
      items

/-- `total_duration.total_seconds()`: the span between the newest and
oldest timestamp of the batch. -/
def trendSpanSeconds (logs : List EnrichedRecord) : Int :=
  listMaxInt (logs.map (·.timestamp)) - listMinInt (logs.map (·.timestamp))

/-- `LogAnalyzer._analyze_trends`. -/
def analyze_trends (logs : List EnrichedRecord) : TrendResult :=
  if logs.length < 2 then TrendResult.empty
  else if trendSpanSeconds logs < 3600 then TrendResult.insufficientData
  else trendFromItems (trendPeriodItems logs (periodMinutes (trendSpanSeconds logs)))

/-- `LogAnalyzer._calculate_general_stats` (its own empty guard is
unreachable from `analyze`). -/
structure GeneralStats where
  total_logs : Nat
  range_start : Int
  range_end : Int
  duration_hours : PyFloat
  unique_sources : Nat
  unique_hosts : Nat
  average_severity : PyFloat
deriving DecidableEq

def calculate_general_stats (logs : List EnrichedRecord) : Option GeneralStats :=
  if logs.isEmpty then none
  else
    let timestamps := logs.map (·.timestamp)
    some
      { total_logs := logs.length
        range_start := listMinInt timestamps
        range_end := listMaxInt timestamps
        duration_hours :=
          PyFloat.div (PyFloat.ofInt (listMaxInt timestamps - listMinInt timestamps))
            (PyFloat.ofNat 3600)
        unique_sources := (distinctInOrder (logs.map (·.source))).length
        unique_hosts :=
          (distinctInOrder (logs.map (fun l => l.hostname.getD "unknown"))).length
        average_severity :=
          PyFloat.div (PyFloat.ofNat (logs.map (·.severity_score)).sum)
            (PyFloat.ofNat logs.length) }

structure LevelStatEntry where
  level : String
  count : Nat
  percentage : PyFloat
deriving DecidableEq

structure LevelStats where
  by_level : List LevelStatEntry
  most_common_level : String × Nat
  error_ratio : PyFloat
deriving DecidableEq

/-- `LogAnalyzer._analyze_by_level`. -/
def analyze_by_level (logs : List EnrichedRecord) : LevelStats :=
  let levels := logs.map (·.level)
  let items := countItems levels
  { by_level := items.map (fun p =>
      ⟨p.1, p.2,
        pyRound2 ((PyFloat.div (PyFloat.ofNat p.2) (PyFloat.ofNat logs.length)).mul
          (PyFloat.ofNat 100))⟩)
    most_common_level := ((stableSort countAfter items).head?).getD ("INFO", 0)
    error_ratio :=
      pyRound2 ((PyFloat.div
        (PyFloat.ofNat (levels.count "ERROR" + levels.count "CRITICAL"))
        (PyFloat.ofNat logs.length)).mul (PyFloat.ofNat 100)) }

/-- `timestamp.replace(minute=0, second=0, microsecond=0)` on epoch
seconds. -/
def hourBucket (t : Int) : Int := t - t.emod 3600

/-- `timestamp.date()` as an epoch day index. -/
def dayBucket (t : Int) : Int := t.ediv 86400

/-- `timestamp.hour`. -/
def hourOfDay (t : Int) : Int := (t.emod 86400).ediv 3600

/-- `timestamp.replace(second=0, microsecond=0)`. -/
def minuteBucket (t : Int) : Int := t - t.emod 60

structure TimeStats where
  hourly_distribution : List (Int × Nat)
  daily_distribution : List (Int × Nat)
  peak_hours : List (Int × Nat)
  peak_days : List (Int × Nat)
  busiest_hour_of_day : Int × Nat
  hours_of_day_stats : List (Int × Nat)
deriving DecidableEq

/-- `max(items, key=lambda x: x[1])`: Python `max` keeps the first
maximal element. -/
def firstMaxByCount (items : List (Int × Nat)) : Int × Nat :=
  match items with
  | [] => (0, 0)
  | x :: xs => xs.foldl (fun best p => if p.2 > best.2 then p else best) x

/-- `LogAnalyzer._analyze_by_time`. -/
def analyze_by_time (logs : List EnrichedRecord) : TimeStats :=
  let hourly := countItems (logs.map (fun l => hourBucket l.timestamp))
  let daily := countItems (logs.map (fun l => dayBucket l.timestamp))
  let hod := countItems (logs.map (fun l => hourOfDay l.timestamp))
  { hourly_distribution := hourly
    daily_distribution := daily
    peak_hours := (stableSort countAfter hourly).take 5
    peak_days := (stableSort countAfter daily).take 3
    busiest_hour_of_day := firstMaxByCount hod
    hours_of_day_stats := hod }

structure SourceStats where
  top_sources : List (String × Nat)
  top_error_sources : List (String × Nat)
  total_unique_sources : Nat
  sources_with_errors : Nat
deriving DecidableEq

/-- `LogAnalyzer._analyze_by_source`. -/
def analyze_by_source (logs : List EnrichedRecord) : SourceStats :=
  let sc := countItems (logs.map (·.source))
  let esc := countItems ((errorLogsOf logs).map (·.source))
  { top_sources := (stableSort countAfter sc).take 10
    top_error_sources := (stableSort countAfter esc).take 5
    total_unique_sources := sc.length
    sources_with_errors := esc.length }

structure ErrorTypeEntry where
  error_type : String
  count : Nat
  percentage : PyFloat
deriving DecidableEq

inductive ErrorTypeStats where
  | empty
  | stats (by_type : List ErrorTypeEntry) (most_common_type : String × Nat)
      (total_types : Nat)
deriving DecidableEq

/-- `LogAnalyzer._analyze_error_types`. -/
def analyze_error_types (logs : List EnrichedRecord) : ErrorTypeStats :=
  let el := errorLogsOf logs
  if el.isEmpty then ErrorTypeStats.empty
  else
    let items := countItems (el.map (·.error_type))
    ErrorTypeStats.stats
      (items.map (fun p =>
        ⟨p.1, p.2,
          pyRound2 ((PyFloat.div (PyFloat.ofNat p.2) (PyFloat.ofNat el.length)).mul
            (PyFloat.ofNat 100))⟩))
      (((stableSort countAfter items).head?).getD ("Загальна помилка", 0))
      items.length

structure CriticalEvent where
  type : String
  timestamp : Int
  description : String
  severity : String
  source : Option String
  count : Option Nat
deriving DecidableEq

/-- `LogAnalyzer._find_critical_events`. -/
def find_critical_events (logs : List EnrichedRecord) : List CriticalEvent :=
  let criticals := (logs.filter (fun l => l.level = "CRITICAL")).map (fun l =>
    { type := "critical_error"
      timestamp := l.timestamp
      description := "Критична помилка в " ++ l.source ++ ": "
        ++ String.mk (l.simplified_message.data.take 100)
      severity := "high"
      source := some l.source
      count := none : CriticalEvent })
  let el := errorLogsOf logs
  let minutes := distinctInOrder (el.map (fun l => minuteBucket l.timestamp))
  let bursts := (minutes.filter (fun m =>
      10 ≤ (el.filter (fun l => minuteBucket l.timestamp == m)).length)).map (fun m =>
    { type := "high_frequency_errors"
      timestamp := m
      description := "Високочастотні помилки: "
        ++ toString (el.filter (fun l => minuteBucket l.timestamp == m)).length
        ++ " помилок за хвилину"
      severity := "medium"
      source := none
      count := some (el.filter (fun l => minuteBucket l.timestamp == m)).length :
        CriticalEvent })
  (stableSort (fun a b => decide (a.timestamp < b.timestamp)) (criticals ++ bursts)).take 20

/-- The assembled result dict of `LogAnalyzer.analyze`. -/
structure AnalysisResult where
  general_stats : Option GeneralStats
  level_stats : LevelStats
  time_stats : TimeStats
  source_stats : SourceStats
  error_stats : ErrorStats
  error_types : ErrorTypeStats
  trends : TrendResult
  critical_events : List CriticalEvent
  analysis_timestamp : Int
deriving DecidableEq

/-- `LogAnalyzer.analyze`: empty input short-circuits to the explicit
empty result (`return {}`, modelled `none`); otherwise all passes run.
`now` models the `datetime.now()` read for `analysis_timestamp`. -/
def analyze (logs : List EnrichedRecord) (top_n : Nat) (now : Int) :
    Option AnalysisResult :=
  if logs.isEmpty then none
  else some
    { general_stats := calculate_general_stats logs
      level_stats := analyze_by_level logs
      time_stats := analyze_by_time logs
      source_stats := analyze_by_source logs
      error_stats := analyze_errors logs top_n
      error_types := analyze_error_types logs
      trends := analyze_trends logs
      critical_events := find_critical_events logs
      analysis_timestamp := now }

/-! Helper lemmas. -/

theorem severity_foldl (p : String → Bool) (kws : List String) (base : Nat) :
    kws.foldl (fun s kw => if p kw then s + 10 else s) base
      = base + 10 * kws.countP p := by
  induction kws generalizing base with
  | nil => simp
  | cons k t ih =>
    simp only [List.foldl_cons, List.countP_cons]
    by_cases h : p k
    · simp only [h, if_true, ih]
      ring
    · simp [h, ih]

theorem filterMap_eq_filterMap_filter {α β : Type} (f : α → Option β) (l : List α) :
    l.filterMap f = (l.filter (fun x => (f x).isSome)).filterMap f := by
  induction l with
  | nil => rfl
  | cons x t ih =>
    cases h : f x with
    | none => simp [List.filterMap_cons, List.filter_cons, h, ih]
    | some b => simp [List.filterMap_cons, List.filter_cons, h, ih]

/-! ### C5 — severity score -/

/-- C5: for every canonical record, `severity_score` is
`min(100, base + 10 * k)` where `base` is the per-level base score and `k`
the number of the five critical keywords contained in the lower-cased
message; consequently the score never exceeds 100 (it is a `Nat`, so it is
also never negative). -/
theorem c5_severity_formula (level message : String) :
    calculate_severity_score level message
      = min 100 (level_base_score level
          + 10 * criticalSeverityKeywords.countP (fun kw => pyContains (pyLower message) kw))
      ∧ calculate_severity_score level message ≤ 100 := by
  unfold calculate_severity_score
  simp only [severity_foldl]
  exact ⟨Nat.min_comm _ _, Nat.min_le_right _ _⟩

/-! ### C3 — ERROR/CRITICAL records survive the include-keyword check -/

/-- C3: for every filter configuration and every record of level ERROR or
CRITICAL, if the record passed the level check and the exclude check then
the filter accepts it — the include-keyword check can never reject it. -/
theorem c3_error_critical_passes_include (cfg : LogFilterCfg) (entry : CanonicalRecord)
    (hlvl : entry.level = "ERROR" ∨ entry.level = "CRITICAL")
    (hpass : passes_level_check cfg entry.level entry.message = true)
    (hexc : hits_exclude cfg entry.message = false) :
    should_include_log cfg entry = true := by
  unfold should_include_log
  have hor : (entry.level = "ERROR" || entry.level = "CRITICAL") = true := by
    rcases hlvl with h | h <;> simp [h]
  simp [hpass, hexc, hor]

def w3entry : CanonicalRecord :=
  { timestamp := 5, level := "ERROR", source := "kernel", message := "xyzzy",
    original_message := "xyzzy", pid := none, hostname := none, user := none,
    event_id := none, category := none, log_source := "Unknown", unit := none,
    computer := none }

theorem c3_witness :
    (w3entry.level = "ERROR" ∨ w3entry.level = "CRITICAL")
      ∧ passes_level_check (mkLogFilterCfg none none none) w3entry.level w3entry.message = true
      ∧ hits_exclude (mkLogFilterCfg none none none) w3entry.message = false
      ∧ should_include_log (mkLogFilterCfg none none none) w3entry = true :=
  ⟨Or.inl rfl, by decide, by decide,
    c3_error_critical_passes_include (mkLogFilterCfg none none none) w3entry
      (Or.inl rfl) (by decide) (by decide)⟩

/-! ### C4 — exclude keywords always win -/

/-- C4: for every configuration and record, if the lower-cased message
contains any configured exclude keyword the filter rejects the record,
whatever its level (the record is rejected either already by the level
check or, having passed it, by the exclude check). -/
theorem c4_exclude_rejects (cfg : LogFilterCfg) (entry : CanonicalRecord)
    (hexc : hits_exclude cfg entry.message = true) :
    should_include_log cfg entry = false := by
  unfold should_include_log
  by_cases hp : passes_level_check cfg entry.level entry.message <;> simp [hp, hexc]

def w4entry : CanonicalRecord :=
  { timestamp := 5, level := "CRITICAL", source := "app", message := "noise storm",
    original_message := "noise storm", pid := none, hostname := none, user := none,
    event_id := none, category := none, log_source := "Unknown", unit := none,
    computer := none }

def w4cfg : LogFilterCfg := mkLogFilterCfg none none (some ["noise"])

theorem c4_witness :
    hits_exclude w4cfg w4entry.message = true
      ∧ should_include_log w4cfg w4entry = false :=
  ⟨by decide, c4_exclude_rejects w4cfg w4entry (by decide)⟩

/-! ### C9 — empty input is handled by both entry points -/

/-- C9: `analyze` on an empty batch returns the explicit empty result for
every `top_n` (and every wall-clock reading), and `parse_logs` on an empty
batch returns the empty list for every policy; neither has a failure
path. -/
theorem c9_empty_input :
    (∀ (top_n : Nat) (now : Int), analyze [] top_n now = none)
      ∧ (∀ cfg : LogFilterCfg, parse_logs cfg [] = []) :=
  ⟨fun _ _ => rfl, fun _ => rfl⟩

/-! ### C10 — parse output is an order-preserving selection of the input -/

/-- C10: `parse_logs` is exactly the per-record partial map `parse_one`
filter-mapped over the input: every output record derives from exactly one
input record, the retained records appear in input order, and the set of
originating records is a sublist of the input. -/
theorem c10_parse_is_filterMap (cfg : LogFilterCfg) (raws : List RawRecord) :
    parse_logs cfg raws = raws.filterMap (parse_one cfg)
      ∧ parse_logs cfg raws
          = (raws.filter (fun r => (parse_one cfg r).isSome)).filterMap (parse_one cfg)
      ∧ (raws.filter (fun r => (parse_one cfg r).isSome)).Sublist raws := by
  refine ⟨?_, ?_, List.filter_sublist raws⟩
  · induction raws with
    | nil => rfl
    | cons r rs ih =>
      cases h : parse_one cfg r with
      | none => simp [parse_logs, h, ih]
      | some e => simp [parse_logs, h, ih]
  · rw [← filterMap_eq_filterMap_filter]
    induction raws with
    | nil => rfl
    | cons r rs ih =>
      cases h : parse_one cfg r with
      | none => simp [parse_logs, h, ih]
      | some e => simp [parse_logs, h, ih]

/-! ### C8 — what `original_message` actually stores -/

def w8raw : RawRecord :=
  { timestamp := some 0, message := " disk error ", level := none, source := none,
    pid := none, hostname := none, user := none, event_id := none, category := none,
    log_source := none, unit := none, computer := none }

/-- C8 counterexample: the normalizer accepts a raw record whose message
carries leading/trailing whitespace, but the stored `original_message` is
not the message as received — it has been stripped. -/
theorem c8_counterexample :
    (normalize_log_entry w8raw).isSome = true
      ∧ (normalize_log_entry w8raw).map (fun r => r.original_message)
          ≠ some w8raw.message := by decide

/-- C8 amended: for every accepted raw record, `original_message` equals
the raw message with leading and trailing whitespace stripped (the value
whose non-emptiness was checked), stored without the cleanup patterns
applied. -/
theorem c8_amended (raw : RawRecord) (rec : CanonicalRecord)
    (h : normalize_log_entry raw = some rec) :
    rec.original_message = pyStrip raw.message := by
  unfold normalize_log_entry at h
  cases hts : raw.timestamp with
  | none => rw [hts] at h; cases h
  | some ts =>
    rw [hts] at h
    by_cases hm : pyStrip raw.message = ""
    · simp [hm] at h
    · simp only [hm, if_false] at h
      cases h
      rfl

def w8rec : CanonicalRecord :=
  { timestamp := 0, level := "INFO", source := "Unknown", message := "disk error",
    original_message := "disk error", pid := none, hostname := none, user := none,
    event_id := none, category := none, log_source := "Unknown", unit := none,
    computer := none }

theorem c8_witness :
    normalize_log_entry w8raw = some w8rec
      ∧ w8rec.original_message = pyStrip w8raw.message :=
  ⟨by decide, c8_amended w8raw w8rec (by decide)⟩

/-! ### C1 — the message hash and variable tokens -/

theorem hashSubAux_nil (n : Nat) : hashSubAux [] n = [] := rfl

theorem hashSubAux_succ (c : Char) (cs : List Char) (n : Nat) :
    hashSubAux (c :: cs) (n + 1) = hashSubAux cs n := rfl

theorem hashSubAux_skip (pre rest : List Char) :
    hashSubAux (pre ++ rest) pre.length = hashSubAux rest 0 := by
  induction pre with
  | nil => rfl
  | cons c t ih => simpa [hashSubAux_succ] using ih

theorem takeWhile_append_of_all {p : Char → Bool} {l : List Char} (r : List Char)
    (h : ∀ c ∈ l, p c = true) : (l ++ r).takeWhile p = l ++ r.takeWhile p := by
  induction l with
  | nil => rfl
  | cons c t ih =>
    simp only [List.cons_append, List.takeWhile_cons, h c (List.mem_cons_self c t), if_true]
    rw [ih (fun d hd => h d (List.mem_cons_of_mem c hd))]

/-- A character that can never start or belong to any alternative of the
variable-token regex: not a hex char (hence not a digit) and not `/`. -/
def inertChar (c : Char) : Bool :=
  !isHexChar c && c ≠ '/'

theorem hashSubAux_append_inert {u : List Char} (r : List Char)
    (h : ∀ c ∈ u, inertChar c = true) :
    hashSubAux (u ++ r) 0 = u ++ hashSubAux r 0 := by
  induction u with
  | nil => rfl
  | cons c t ih =>
    have hc : inertChar c = true := h c (List.mem_cons_self c t)
    have hhex : isHexChar c = false := by
      cases hx : isHexChar c with
      | false => rfl
      | true => simp [inertChar, hx] at hc
    have hslash : c ≠ '/' := by
      intro he
      rw [he] at hc
      exact absurd hc (by decide)
    have hdig : isAsciiDigit c = false := by
      cases hd : isAsciiDigit c with
      | false => rfl
      | true => simp [isHexChar, hd] at hhex
    simp only [List.cons_append]
    rw [show hashSubAux (c :: (t ++ r)) 0
        = c :: hashSubAux (t ++ r) 0 from by simp [hashSubAux, hdig, hslash, hhex]]
    rw [ih (fun d hd => h d (List.mem_cons_of_mem c hd))]

theorem hashSub_digit_run (d v : List Char) (hne : d ≠ [])
    (hall : ∀ c ∈ d, isAsciiDigit c = true) :
    hashSubAux (d ++ v) 0 = '{' :: '}' :: hashSubAux (v.dropWhile isAsciiDigit) 0 := by
  cases d with
  | nil => exact absurd rfl hne
  | cons c t =>
    have hc : isAsciiDigit c = true := hall c (List.mem_cons_self c t)
    have ht : ∀ x ∈ t, isAsciiDigit x = true :=
      fun x hx => hall x (List.mem_cons_of_mem c hx)
    simp only [List.cons_append]
    rw [show hashSubAux (c :: (t ++ v)) 0
        = '{' :: '}' :: hashSubAux (t ++ v) ((t ++ v).takeWhile isAsciiDigit).length
      from by simp [hashSubAux, hc]]
    rw [takeWhile_append_of_all v ht]
    have hsplit : t ++ v
        = (t ++ v.takeWhile isAsciiDigit) ++ v.dropWhile isAsciiDigit := by
      rw [List.append_assoc, List.takeWhile_append_dropWhile]
    rw [hsplit]
    exact congrArg (fun l => '{' :: '}' :: l)
      (hashSubAux_skip (t ++ v.takeWhile isAsciiDigit) (v.dropWhile isAsciiDigit))

theorem hashSub_path_run (p v : List Char)
    (hall : ∀ c ∈ p, pyIsSpace c = false) :
    hashSubAux (('/' :: p) ++ v) 0
      = '{' :: '}' :: hashSubAux (v.dropWhile (fun d => !pyIsSpace d)) 0 := by
  have hp : ∀ c ∈ p, (!pyIsSpace c) = true := by
    intro c hc; rw [hall c hc]; rfl
  simp only [List.cons_append]
  rw [show hashSubAux ('/' :: (p ++ v)) 0
      = '{' :: '}' :: hashSubAux (p ++ v) ((p ++ v).takeWhile (fun d => !pyIsSpace d)).length
    from by simp [hashSubAux, isAsciiDigit]]
  rw [takeWhile_append_of_all v hp]
  have hsplit : p ++ v
      = (p ++ v.takeWhile (fun d => !pyIsSpace d)) ++ v.dropWhile (fun d => !pyIsSpace d) := by
    rw [List.append_assoc, List.takeWhile_append_dropWhile]
  rw [hsplit]
  exact congrArg (fun l => '{' :: '}' :: l)
    (hashSubAux_skip (p ++ v.takeWhile (fun d => !pyIsSpace d))
      (v.dropWhile (fun d => !pyIsSpace d)))

theorem hashSub_hex_run (c : Char) (t v : List Char)
    (hdig : isAsciiDigit c = false) (hhex : isHexChar c = true)
    (hlen : 7 ≤ t.length) (hall : ∀ x ∈ t, isHexChar x = true) :
    hashSubAux ((c :: t) ++ v) 0 = '{' :: '}' :: hashSubAux (v.dropWhile isHexChar) 0 := by
  have hslash : c ≠ '/' := by
    intro he
    rw [he] at hhex
    exact absurd hhex (by decide)
  simp only [List.cons_append]
  have hcount : ((t ++ v).takeWhile isHexChar).length + 1 ≥ 8 := by
    rw [takeWhile_append_of_all v hall, List.length_append]
    omega
  rw [show hashSubAux (c :: (t ++ v)) 0
      = '{' :: '}' :: hashSubAux (t ++ v) ((t ++ v).takeWhile isHexChar).length
    from by simp [hashSubAux, hdig, hslash, hhex, hcount]]
  rw [takeWhile_append_of_all v hall]
  have hsplit : t ++ v = (t ++ v.takeWhile isHexChar) ++ v.dropWhile isHexChar := by
    rw [List.append_assoc, List.takeWhile_append_dropWhile]
  rw [hsplit]
  exact congrArg (fun l => '{' :: '}' :: l)
    (hashSubAux_skip (t ++ v.takeWhile isHexChar) (v.dropWhile isHexChar))

/-- The spec "`0x…` literal" token class, stated from the spec's words
(for refuting the claim that such tokens are collapsed to one
placeholder). -/
def specHexLiteral (t : String) : Bool :=
  match t.data with
  | '0' :: 'x' :: r => !r.isEmpty && r.all isHexChar
  | _ => false

/-- C1 counterexample: `"at 0xAB"` and `"at 0xCD"` differ only in a
`0x…` hex-literal token, yet their message hashes differ: the regex tries
`\d+` before `0x[A-F0-9]+`, so the leading `0` is collapsed on its own and
the hex tail survives (`at 0xAB ↦ at \x7b\x7dxab`). -/
theorem c1_counterexample :
    specHexLiteral "0xAB" = true ∧ specHexLiteral "0xCD" = true
      ∧ ("at " ++ "0xAB" : String) = "at 0xAB"
      ∧ ("at " ++ "0xCD" : String) = "at 0xCD"
      ∧ generate_message_hash "at 0xAB" ≠ generate_message_hash "at 0xCD" := by decide

/-- C1 amended: the hash is a function of the code's normalized text, and
messages differing only in a maximal digit run, only in a `/`-led
non-whitespace path token, or only in a hex token of 8 or more characters
that starts with a hex letter, hash identically (the preceding context
being free of digit/hex/`/` characters).  `0x…` literals and hex ids
beginning with a digit are not collapsed as single tokens — their leading
digit run is collapsed separately, so messages differing in them can hash
differently. -/
theorem c1_amended :
    (∀ (u v d1 d2 : List Char),
        (∀ c ∈ u, inertChar c = true) →
        d1 ≠ [] → (∀ c ∈ d1, isAsciiDigit c = true) →
        d2 ≠ [] → (∀ c ∈ d2, isAsciiDigit c = true) →
        generate_message_hash (String.mk (u ++ d1 ++ v))
          = generate_message_hash (String.mk (u ++ d2 ++ v)))
    ∧ (∀ (u v p1 p2 : List Char),
        (∀ c ∈ u, inertChar c = true) →
        (∀ c ∈ p1, pyIsSpace c = false) →
        (∀ c ∈ p2, pyIsSpace c = false) →
        generate_message_hash (String.mk (u ++ ('/' :: p1) ++ v))
          = generate_message_hash (String.mk (u ++ ('/' :: p2) ++ v)))
    ∧ (∀ (u v : List Char) (c1 c2 : Char) (t1 t2 : List Char),
        (∀ c ∈ u, inertChar c = true) →
        isAsciiDigit c1 = false → isHexChar c1 = true → 7 ≤ t1.length →
        (∀ x ∈ t1, isHexChar x = true) →
        isAsciiDigit c2 = false → isHexChar c2 = true → 7 ≤ t2.length →
        (∀ x ∈ t2, isHexChar x = true) →
        generate_message_hash (String.mk (u ++ (c1 :: t1) ++ v))
          = generate_message_hash (String.mk (u ++ (c2 :: t2) ++ v))) := by
  refine ⟨?_, ?_, ?_⟩
  · intro u v d1 d2 hu h1ne h1 h2ne h2
    unfold generate_message_hash hashNormalize hashSub
    rw [List.append_assoc u d1 v, List.append_assoc u d2 v,
      hashSubAux_append_inert _ hu, hashSubAux_append_inert _ hu,
      hashSub_digit_run d1 v h1ne h1, hashSub_digit_run d2 v h2ne h2]
  · intro u v p1 p2 hu h1 h2
    unfold generate_message_hash hashNormalize hashSub
    rw [List.append_assoc u _ v, List.append_assoc u _ v,
      hashSubAux_append_inert _ hu, hashSubAux_append_inert _ hu,
      hashSub_path_run p1 v h1, hashSub_path_run p2 v h2]
  · intro u v c1 c2 t1 t2 hu hd1 hh1 hl1 ha1 hd2 hh2 hl2 ha2
    unfold generate_message_hash hashNormalize hashSub
    rw [List.append_assoc u _ v, List.append_assoc u _ v,
      hashSubAux_append_inert _ hu, hashSubAux_append_inert _ hu,
      hashSub_hex_run c1 t1 v hd1 hh1 hl1 ha1,
      hashSub_hex_run c2 t2 v hd2 hh2 hl2 ha2]

theorem c1_witness :
    generate_message_hash (String.mk (['u', 'p', ' '] ++ ['1', '2'] ++ [' ', 'o', 'k']))
      = generate_message_hash (String.mk (['u', 'p', ' '] ++ ['9'] ++ [' ', 'o', 'k'])) :=
  c1_amended.1 ['u', 'p', ' '] [' ', 'o', 'k'] ['1', '2'] ['9']
    (by decide) (by decide) (by decide) (by decide) (by decide)

/-! ### C2 — idempotence of message cleaning -/

/-- The whitespace shape left by the collapse pattern: every whitespace
character is a plain space, and no two adjacent characters are both
whitespace. -/
def wsOk (l : List Char) : Prop :=
  (∀ c ∈ l, pyIsSpace c = true → c = ' ')
    ∧ List.Chain' (fun a b => ¬(pyIsSpace a = true ∧ pyIsSpace b = true)) l

theorem collapseWs_head_cons (c : Char) (cs : List Char) (h : pyIsSpace c = false) :
    (collapseWs (c :: cs)).head? = some c := by
  cases cs with
  | nil => simp [collapseWs, h]
  | cons c2 cs2 => simp [collapseWs, h]

theorem wsOk_collapseWs (l : List Char) : wsOk (collapseWs l) := by
  induction l with
  | nil => exact ⟨by simp [collapseWs], by simp [collapseWs]⟩
  | cons c cs ih =>
    cases cs with
    | nil =>
      by_cases h : pyIsSpace c = true
      · refine ⟨?_, ?_⟩ <;> simp [collapseWs, h]
      · have hf : pyIsSpace c = false := by simpa using h
        refine ⟨?_, ?_⟩ <;> simp [collapseWs, hf]
    | cons c2 cs2 =>
      by_cases h : pyIsSpace c = true
      · by_cases h2 : pyIsSpace c2 = true
        · simpa [collapseWs, h, h2] using ih
        · have h2f : pyIsSpace c2 = false := by simpa using h2
          have hres : collapseWs (c :: c2 :: cs2) = ' ' :: collapseWs (c2 :: cs2) := by
            simp [collapseWs, h, h2f]
          rw [hres]
          refine ⟨?_, ?_⟩
          · intro x hx hwsx
            rcases List.mem_cons.mp hx with h3 | h3
            · rw [h3]
            · exact ih.1 x h3 hwsx
          · rw [List.chain'_cons']
            refine ⟨?_, ih.2⟩
            intro y hy
            rw [collapseWs_head_cons c2 cs2 h2f] at hy
            have hyy : c2 = y := by simpa using hy
            rw [← hyy]
            intro hcon
            rw [h2f] at hcon
            exact Bool.false_ne_true hcon.2
      · have hf : pyIsSpace c = false := by simpa using h
        have hres : collapseWs (c :: c2 :: cs2) = c :: collapseWs (c2 :: cs2) := by
          simp [collapseWs, hf]
        rw [hres]
        refine ⟨?_, ?_⟩
        · intro x hx hwsx
          rcases List.mem_cons.mp hx with h3 | h3
          · rw [h3] at hwsx; rw [hf] at hwsx; exact absurd hwsx Bool.false_ne_true
          · exact ih.1 x h3 hwsx
        · rw [List.chain'_cons']
          refine ⟨?_, ih.2⟩
          intro y _ hcon
          rw [hf] at hcon
          exact Bool.false_ne_true hcon.1

theorem isInfixOfIsPrefix {l1 l2 : List Char} (h : l1 <+: l2) : l1 <:+: l2 := by
  obtain ⟨t, ht⟩ := h
  exact ⟨[], t, by simpa using ht⟩

theorem isInfixOfIsSuffix {l1 l2 : List Char} (h : l1 <:+ l2) : l1 <:+: l2 := by
  obtain ⟨s, hs⟩ := h
  exact ⟨s, [], by simpa using hs⟩

theorem wsOk_of_infixOf {l l2 : List Char} (h : wsOk l) (hi : l2 <:+: l) : wsOk l2 :=
  ⟨fun c hc => h.1 c (List.IsInfix.subset hi hc), List.Chain'.infix h.2 hi⟩

theorem suffix_of_eq_cons {a : Char} {x t : List Char} (h : x = a :: t) : t <:+ x := by
  rw [h]
  exact List.suffix_cons a t

theorem matchTsHead_suffix {l r : List Char} (h : matchTsHead l = some r) : r <:+ l := by
  unfold matchTsHead at h
  split at h
  case _ a r1 heq =>
    have hr1 : r1 <:+ l :=
      List.IsSuffix.trans (suffix_of_eq_cons heq) (List.dropWhile_suffix _)
    split at h
    · exact absurd h (by simp)
    · split at h
      case _ r2 heq2 =>
        have hr2 : r2 <:+ l :=
          List.IsSuffix.trans
            (List.IsSuffix.trans (suffix_of_eq_cons heq2) (List.dropWhile_suffix _)) hr1
        split at h
        · exact absurd h (by simp)
        · split at h
          case _ r4 heq3 =>
            have hr4 : r4 <:+ l :=
              List.IsSuffix.trans
                (List.IsSuffix.trans (suffix_of_eq_cons heq3) (List.dropWhile_suffix _)) hr2
            injection h with h
            rw [← h]
            exact List.IsSuffix.trans (List.dropWhile_suffix _) hr4
          case _ =>
            exact absurd h (by simp)
      case _ =>
        exact absurd h (by simp)
  case _ =>
    exact absurd h (by simp)

theorem stripTsHead_suffix (l : List Char) : stripTsHead l <:+ l := by
  unfold stripTsHead
  cases h : matchTsHead l with
  | none => simp
  | some r => simpa using matchTsHead_suffix h

theorem stripAngleHead_suffix (l : List Char) : stripAngleHead l <:+ l := by
  cases l with
  | nil => simp [stripAngleHead]
  | cons c cs =>
    by_cases h : (c = '<' || c = '>') = true
    · rw [show stripAngleHead (c :: cs)
          = ((c :: cs).dropWhile (fun d => d = '<' || d = '>')).dropWhile pyIsSpace from by
        simp [stripAngleHead, h]]
      exact List.IsSuffix.trans (List.dropWhile_suffix _) (List.dropWhile_suffix _)
    · have h1 : ¬ c = '<' ∧ ¬ c = '>' := by simpa using h
      rw [show stripAngleHead (c :: cs) = c :: cs from by
        simp [stripAngleHead, h1.1, h1.2]]

theorem stripChars_prefix_dropWhile (l : List Char) :
    stripChars l <+: l.dropWhile pyIsSpace := by
  unfold stripChars
  refine List.reverse_suffix.mp ?_
  rw [List.reverse_reverse]
  exact List.dropWhile_suffix _

theorem stripChars_infixOf (l : List Char) : stripChars l <:+: l :=
  List.IsInfix.trans (isInfixOfIsPrefix (stripChars_prefix_dropWhile l))
    (isInfixOfIsSuffix (List.dropWhile_suffix _))

theorem collapseWs_eq_self {l : List Char} (h : wsOk l) : collapseWs l = l := by
  induction l with
  | nil => rfl
  | cons c cs ih =>
    cases cs with
    | nil =>
      by_cases hc : pyIsSpace c = true
      · have hce : c = ' ' := h.1 c (by simp) hc
        rw [hce]
        simp [collapseWs, pyIsSpace]
      · have hcf : pyIsSpace c = false := by simpa using hc
        simp [collapseWs, hcf]
    | cons c2 cs2 =>
      have h2 : wsOk (c2 :: cs2) :=
        ⟨fun x hx => h.1 x (List.mem_cons_of_mem c hx), (List.chain'_cons'.mp h.2).2⟩
      by_cases hc : pyIsSpace c = true
      · have hce : c = ' ' := h.1 c (by simp) hc
        have hrel := (List.chain'_cons'.mp h.2).1
        have hc2 : pyIsSpace c2 = false := by
          by_cases hx : pyIsSpace c2 = true
          · exact absurd ⟨hc, hx⟩ (hrel c2 (by simp))
          · simpa using hx
        rw [show collapseWs (c :: c2 :: cs2) = ' ' :: collapseWs (c2 :: cs2) from by
          simp [collapseWs, hc, hc2]]
        rw [ih h2, hce]
      · have hcf : pyIsSpace c = false := by simpa using hc
        rw [show collapseWs (c :: c2 :: cs2) = c :: collapseWs (c2 :: cs2) from by
          simp [collapseWs, hcf]]
        rw [ih h2]

theorem head_false_of_dropWhile {p : Char → Bool} {l : List Char} {c : Char}
    (h : (l.dropWhile p).head? = some c) : p c = false := by
  induction l with
  | nil => cases h
  | cons a t ih =>
    by_cases ha : p a = true
    · rw [List.dropWhile_cons, if_pos ha] at h
      exact ih h
    · rw [List.dropWhile_cons, if_neg ha] at h
      have : a = c := by simpa using h
      rw [← this]
      simpa using ha

theorem dropWhile_eq_self_of_head {p : Char → Bool} {l : List Char}
    (h : ∀ c, l.head? = some c → p c = false) : l.dropWhile p = l := by
  cases l with
  | nil => rfl
  | cons c t => rw [List.dropWhile_cons, if_neg (by simp [h c rfl])]

theorem head_of_isPrefix {l1 l2 : List Char} {c : Char} (h : l1 <+: l2)
    (hc : l1.head? = some c) : l2.head? = some c := by
  obtain ⟨t, ht⟩ := h
  cases l1 with
  | nil => cases hc
  | cons a r =>
    have ha : a = c := by simpa using hc
    rw [← ht, ha]
    rfl

theorem stripChars_head_false {l : List Char} {c : Char}
    (h : (stripChars l).head? = some c) : pyIsSpace c = false :=
  head_false_of_dropWhile (head_of_isPrefix (stripChars_prefix_dropWhile l) h)

theorem stripChars_reverse_head_false {l : List Char} {c : Char}
    (h : (stripChars l).reverse.head? = some c) : pyIsSpace c = false := by
  unfold stripChars at h
  rw [List.reverse_reverse] at h
  exact head_false_of_dropWhile h

theorem stripChars_eq_self {l : List Char}
    (h1 : ∀ c, l.head? = some c → pyIsSpace c = false)
    (h2 : ∀ c, l.reverse.head? = some c → pyIsSpace c = false) :
    stripChars l = l := by
  unfold stripChars
  rw [dropWhile_eq_self_of_head h1, dropWhile_eq_self_of_head h2]
  exact List.reverse_reverse l

/-- Does the string begin with a bracketed timestamp that the second
cleanup pattern would strip? -/
def startsWithTs (s : String) : Bool :=
  (matchTsHead s.data).isSome

/-- Bool form of "starts with an angle bracket" on character lists. -/
def angleHeadB : List Char → Bool
  | c :: _ => c = '<' || c = '>'
  | [] => false

/-- Does the string begin with a framing angle bracket? -/
def startsWithAngle (s : String) : Bool :=
  angleHeadB s.data

theorem cleanChars_idem (l : List Char)
    (hts : matchTsHead (cleanChars l) = none)
    (hang : angleHeadB (cleanChars l) = false) :
    cleanChars (cleanChars l) = cleanChars l := by
  have hws : wsOk (cleanChars l) :=
    wsOk_of_infixOf
      (wsOk_of_infixOf
        (wsOk_of_infixOf (wsOk_collapseWs l)
          (isInfixOfIsSuffix (stripTsHead_suffix _)))
        (isInfixOfIsSuffix (stripAngleHead_suffix _)))
      (stripChars_infixOf _)
  show stripChars (stripAngleHead (stripTsHead (collapseWs (cleanChars l)))) = cleanChars l
  rw [collapseWs_eq_self hws]
  rw [show stripTsHead (cleanChars l) = cleanChars l from by simp [stripTsHead, hts]]
  rw [show stripAngleHead (cleanChars l) = cleanChars l from ?hangle]
  case hangle =>
    cases hcl : cleanChars l with
    | nil => rfl
    | cons c cs =>
      rw [hcl] at hang
      have hcond : (c = '<' || c = '>') = false := by simpa [angleHeadB] using hang
      simp [stripAngleHead, hcond]
  · apply stripChars_eq_self
    · intro c hc
      exact stripChars_head_false (l := stripAngleHead (stripTsHead (collapseWs l))) hc
    · intro c hc
      exact stripChars_reverse_head_false (l := stripAngleHead (stripTsHead (collapseWs l))) hc

/-- C2 counterexample: cleaning is not idempotent — stripping the leading
angle bracket of `"<[1.2] a"` exposes a bracketed timestamp, which only the
second pass strips. -/
theorem c2_counterexample :
    clean_message (clean_message "<[1.2] a") ≠ clean_message "<[1.2] a" := by decide

/-- C2 amended: cleaning is idempotent for every message whose cleaned
form does not itself begin with a bracketed `[digits.digits]` timestamp or
with an angle-bracket character (stripping a leading marker can expose
another one, which only the next application removes). -/
theorem c2_amended (m : String)
    (h1 : startsWithTs (clean_message m) = false)
    (h2 : startsWithAngle (clean_message m) = false) :
    clean_message (clean_message m) = clean_message m := by
  have hts : matchTsHead (cleanChars m.data) = none := by
    cases h : matchTsHead (cleanChars m.data) with
    | none => rfl
    | some r =>
      have : startsWithTs (clean_message m) = true := by
        unfold startsWithTs
        show (matchTsHead (cleanChars m.data)).isSome = true
        rw [h]
        rfl
      rw [this] at h1
      cases h1
  have hang : angleHeadB (cleanChars m.data) = false := h2
  have hmain := cleanChars_idem m.data hts hang
  show String.mk (cleanChars (String.mk (cleanChars m.data)).data) = String.mk (cleanChars m.data)
  rw [show (String.mk (cleanChars m.data)).data = cleanChars m.data from rfl, hmain]

theorem c2_witness :
    startsWithTs (clean_message "boot ok") = false
      ∧ startsWithAngle (clean_message "boot ok") = false
      ∧ clean_message (clean_message "boot ok") = clean_message "boot ok" :=
  ⟨by decide, by decide, c2_amended "boot ok" (by decide) (by decide)⟩

/-! ### C6 — ranking of the top-error list -/

theorem lexLtNN_iff (x y : Nat × Nat) :
    lexLtNN x y = true ↔ x.1 < y.1 ∨ (x.1 = y.1 ∧ x.2 < y.2) := by
  simp [lexLtNN]

theorem lexLtNN_eq_false_iff (x y : Nat × Nat) :
    lexLtNN x y = false ↔ ¬(x.1 < y.1 ∨ (x.1 = y.1 ∧ x.2 < y.2)) := by
  rw [← lexLtNN_iff]
  cases lexLtNN x y <;> simp

theorem lexLtNN_asymm {x y : Nat × Nat} (h : lexLtNN x y = true) :
    lexLtNN y x = false := by
  rw [lexLtNN_iff] at h
  rw [lexLtNN_eq_false_iff]
  omega

theorem lexLtNN_ge_trans {x y z : Nat × Nat} (h1 : lexLtNN x y = false)
    (h2 : lexLtNN y z = false) : lexLtNN x z = false := by
  rw [lexLtNN_eq_false_iff] at h1 h2 ⊢
  omega

theorem lexLtNN_ne {x y : Nat × Nat} (h : lexLtNN x y = true) : x ≠ y := by
  rw [lexLtNN_iff] at h
  intro he
  rw [he] at h
  omega

theorem stableInsert_perm (after : α → α → Bool) (x : α) (l : List α) :
    (stableInsert after x l).Perm (x :: l) := by
  induction l with
  | nil => exact List.Perm.refl _
  | cons y ys ih =>
    by_cases h : after x y = true
    · rw [show stableInsert after x (y :: ys) = y :: stableInsert after x ys from by
        simp [stableInsert, h]]
      exact List.Perm.trans (List.Perm.cons y ih) (List.Perm.swap x y ys)
    · rw [show stableInsert after x (y :: ys) = x :: y :: ys from by
        simp [stableInsert, h]]

theorem stableSort_perm (after : α → α → Bool) (l : List α) :
    (stableSort after l).Perm l := by
  induction l with
  | nil => exact List.Perm.refl _
  | cons x xs ih =>
    exact List.Perm.trans (stableInsert_perm after x (stableSort after xs))
      (List.Perm.cons x ih)

theorem stableInsert_sorted (key : α → Nat × Nat) (x : α) (l : List α)
    (h : l.Pairwise (fun a b => lexLtNN (key a) (key b) = false)) :
    (stableInsert (fun a b => lexLtNN (key a) (key b)) x l).Pairwise
      (fun a b => lexLtNN (key a) (key b) = false) := by
  induction l with
  | nil => simp [stableInsert]
  | cons y ys ih =>
    rw [List.pairwise_cons] at h
    by_cases hxy : lexLtNN (key x) (key y) = true
    · rw [show stableInsert (fun a b => lexLtNN (key a) (key b)) x (y :: ys)
          = y :: stableInsert (fun a b => lexLtNN (key a) (key b)) x ys from by
        simp [stableInsert, hxy]]
      rw [List.pairwise_cons]
      refine ⟨?_, ih h.2⟩
      intro z hz
      have hz2 : z ∈ x :: ys :=
        (stableInsert_perm (fun a b => lexLtNN (key a) (key b)) x ys).mem_iff.mp hz
      rcases List.mem_cons.mp hz2 with h1 | h1
      · rw [h1]
        exact lexLtNN_asymm hxy
      · exact h.1 z h1
    · have hxyf : lexLtNN (key x) (key y) = false := by simpa using hxy
      rw [show stableInsert (fun a b => lexLtNN (key a) (key b)) x (y :: ys)
          = x :: y :: ys from by simp [stableInsert, hxyf]]
      rw [List.pairwise_cons]
      refine ⟨?_, List.pairwise_cons.mpr h⟩
      intro z hz
      rcases List.mem_cons.mp hz with h1 | h1
      · rw [h1]
        exact hxyf
      · exact lexLtNN_ge_trans hxyf (h.1 z h1)

theorem stableSort_sorted (key : α → Nat × Nat) (l : List α) :
    (stableSort (fun a b => lexLtNN (key a) (key b)) l).Pairwise
      (fun a b => lexLtNN (key a) (key b) = false) := by
  induction l with
  | nil => simp [stableSort]
  | cons x xs ih => exact stableInsert_sorted key x _ ih

theorem stableInsert_filter_key (key : α → Nat × Nat) (x : α) (l : List α)
    (k : Nat × Nat) :
    (stableInsert (fun a b => lexLtNN (key a) (key b)) x l).filter
        (fun e => decide (key e = k))
      = if key x = k then x :: l.filter (fun e => decide (key e = k))
        else l.filter (fun e => decide (key e = k)) := by
  induction l with
  | nil => by_cases h : key x = k <;> simp [stableInsert, h]
  | cons y ys ih =>
    by_cases hxy : lexLtNN (key x) (key y) = true
    · rw [show stableInsert (fun a b => lexLtNN (key a) (key b)) x (y :: ys)
          = y :: stableInsert (fun a b => lexLtNN (key a) (key b)) x ys from by
        simp [stableInsert, hxy]]
      by_cases hk : key x = k
      · have hyk : ¬(key y = k) := by
          intro he
          exact lexLtNN_ne hxy (by rw [hk, he])
        rw [if_pos hk] at ih ⊢
        simp only [List.filter_cons]
        rw [if_neg (by simpa using hyk), ih]
        rw [if_neg (by simpa using hyk)]
      · rw [if_neg hk] at ih ⊢
        simp only [List.filter_cons]
        by_cases hyk : key y = k
        · rw [if_pos (by simpa using hyk), ih, if_pos (by simpa using hyk)]
        · rw [if_neg (by simpa using hyk), ih, if_neg (by simpa using hyk)]
    · rw [show stableInsert (fun a b => lexLtNN (key a) (key b)) x (y :: ys)
          = x :: y :: ys from by simp [stableInsert, by simpa using hxy]]
      by_cases hk : key x = k
      · rw [if_pos hk]
        simp only [List.filter_cons]
        rw [if_pos (by simpa using hk)]
      · rw [if_neg hk]
        simp only [List.filter_cons]
        rw [if_neg (by simpa using hk)]

theorem stableSort_filter_key (key : α → Nat × Nat) (l : List α) (k : Nat × Nat) :
    (stableSort (fun a b => lexLtNN (key a) (key b)) l).filter
        (fun e => decide (key e = k))
      = l.filter (fun e => decide (key e = k)) := by
  induction l with
  | nil => rfl
  | cons x xs ih =>
    rw [show stableSort (fun a b => lexLtNN (key a) (key b)) (x :: xs)
        = stableInsert (fun a b => lexLtNN (key a) (key b)) x
            (stableSort (fun a b => lexLtNN (key a) (key b)) xs) from rfl]
    rw [stableInsert_filter_key, ih]
    by_cases hk : key x = k
    · rw [if_pos hk]
      simp only [List.filter_cons]
      rw [if_pos (by simpa using hk)]
    · rw [if_neg hk]
      simp only [List.filter_cons]
      rw [if_neg (by simpa using hk)]

theorem pairwise_take_drop {α : Type} {R : α → α → Prop} (l : List α) (n : Nat)
    (h : l.Pairwise R) : ∀ x ∈ l.take n, ∀ y ∈ l.drop n, R x y := by
  rw [← List.take_append_drop n l] at h
  exact (List.pairwise_append.mp h).2.2

/-- C6: the top-error list of `_analyze_errors`.  In the non-degenerate
branch the result is the stably sorted group-entry list cut at `top_n`;
that sorted list is a permutation of the first-encounter-ordered group
entries, pairwise non-ascending in the lexicographic `(count, severity)`
key, the cut has length `min top_n M` for `M` groups, every kept entry
ranks at least as high as every dropped one, and for each key value the
sorted list preserves the first-encounter order of the groups (ties keep
encounter order). -/
theorem c6_top_errors_ranking (logs : List EnrichedRecord) (top_n : Nat) :
    (analyze_errors logs top_n = ErrorStats.noErrors ∨
      analyze_errors logs top_n
        = ErrorStats.stats ((sortedErrorEntries logs).take top_n)
            (errorLogsOf logs).length
            (errorGroupKeys (errorLogsOf logs)).length
            (sortedErrorEntries logs).head?)
    ∧ (sortedErrorEntries logs).Perm (errorEntries (errorLogsOf logs))
    ∧ (sortedErrorEntries logs).Pairwise
        (fun a b => lexLtNN (errEntryKey a) (errEntryKey b) = false)
    ∧ ((sortedErrorEntries logs).take top_n).length
        = min top_n (errorEntries (errorLogsOf logs)).length
    ∧ (∀ x ∈ (sortedErrorEntries logs).take top_n,
        ∀ y ∈ (sortedErrorEntries logs).drop top_n,
          lexLtNN (errEntryKey x) (errEntryKey y) = false)
    ∧ (∀ k : Nat × Nat,
        (sortedErrorEntries logs).filter (fun e => decide (errEntryKey e = k))
          = (errorEntries (errorLogsOf logs)).filter
              (fun e => decide (errEntryKey e = k))) := by
  have hperm : (sortedErrorEntries logs).Perm (errorEntries (errorLogsOf logs)) :=
    stableSort_perm _ _
  have hsorted : (sortedErrorEntries logs).Pairwise
      (fun a b => lexLtNN (errEntryKey a) (errEntryKey b) = false) :=
    stableSort_sorted errEntryKey (errorEntries (errorLogsOf logs))
  refine ⟨?_, hperm, hsorted, ?_, ?_, ?_⟩
  · by_cases h : (errorLogsOf logs).isEmpty = true
    · left
      simp [analyze_errors, h]
    · right
      simp [analyze_errors, h, sortedErrorEntries]
  · rw [List.length_take, hperm.length_eq]
  · exact pairwise_take_drop _ top_n hsorted
  · intro k
    exact stableSort_filter_key errEntryKey (errorEntries (errorLogsOf logs)) k

/-! ### C7 — the trend scenario -/

/-- Timestamps of a batch realising the spec scenario: the first five
hours carry 2 error records each (on the hour and at half past), the last
five hours carry 10 each (every six minutes). -/
def trendTimes : List Int :=
  ((List.range 5).map (fun h => [(h : Int) * 3600, (h : Int) * 3600 + 1800])).flatten
    ++ ((List.range 5).map (fun h =>
        (List.range 10).map (fun m => ((h : Int) + 5) * 3600 + (m : Int) * 360))).flatten

/-- The scenario batch: every record an ERROR, enriched by the parser
pipeline itself. -/
def trendBatch : List EnrichedRecord :=
  trendTimes.map (fun t => process_log_entry
    { timestamp := t, level := "ERROR", source := "db",
      message := "connection timeout to db",
      original_message := "connection timeout to db", pid := none,
      hostname := none, user := none, event_id := none, category := none,
      log_source := "Unknown", unit := none, computer := none })

/-- C7 counterexample: a batch with exactly the claimed shape — 2 errors
per hour over the first 5 hours, 10 per hour over the last 5 — does not
report a growing trend: the period length is
`max(60, span_seconds / 100)` minutes (5.94 hours here, seconds having
been divided by 100 where minutes were intended), so only 2 periods
exist and the pass reports insufficient periods. -/
theorem c7_counterexample :
    (∀ l ∈ trendBatch, l.level = "ERROR")
      ∧ (∀ h ∈ List.range 5,
          (trendBatch.filter (fun l => l.timestamp.ediv 3600 == (h : Int))).length = 2)
      ∧ (∀ h ∈ List.range 5,
          (trendBatch.filter (fun l => l.timestamp.ediv 3600 == (h : Int) + 5)).length = 10)
      ∧ analyze_trends trendBatch = TrendResult.insufficientPeriods := by
  set_option maxRecDepth 4000 in decide

/-- Matches exactly the growing report. -/
def TrendResult.isGrowing : TrendResult → Bool
  | TrendResult.report TrendDirection.growing _ _ _ _ => true
  | _ => false

theorem mem_foldl_distinctAux {α : Type} [DecidableEq α] (l : List α) (acc : List α)
    (x : α) :
    (x ∈ l.foldl (fun acc y => if y ∈ acc then acc else acc ++ [y]) acc)
      ↔ x ∈ acc ∨ x ∈ l := by
  induction l generalizing acc with
  | nil => simp
  | cons y ys ih =>
    simp only [List.foldl_cons]
    by_cases h : y ∈ acc
    · rw [if_pos h, ih]
      constructor
      · intro hr
        rcases hr with h1 | h1
        · exact Or.inl h1
        · exact Or.inr (List.mem_cons_of_mem y h1)
      · intro hr
        rcases hr with h1 | h1
        · exact Or.inl h1
        · rcases List.mem_cons.mp h1 with h2 | h2
          · exact Or.inl (by rw [h2]; exact h)
          · exact Or.inr h2
    · rw [if_neg h, ih]
      simp only [List.mem_append, List.mem_cons, List.mem_singleton]
      tauto

theorem mem_distinctInOrder {α : Type} [DecidableEq α] {l : List α} {x : α} :
    x ∈ distinctInOrder l ↔ x ∈ l := by
  unfold distinctInOrder
  rw [mem_foldl_distinctAux]
  simp

theorem PyFloat.toRat_ofNat (n : Nat) : (PyFloat.ofNat n).toRat = n := by
  simp [PyFloat.toRat, PyFloat.ofNat]

theorem PyFloat.den_add (x y : PyFloat) : (x.add y).den = x.den * y.den := rfl

theorem PyFloat.den_mul (x y : PyFloat) : (x.mul y).den = x.den * y.den := rfl

theorem PyFloat.toRat_add (x y : PyFloat) (hx : x.den ≠ 0) (hy : y.den ≠ 0) :
    (x.add y).toRat = x.toRat + y.toRat := by
  unfold PyFloat.toRat PyFloat.add
  have hx2 : (x.den : ℚ) ≠ 0 := by exact_mod_cast hx
  have hy2 : (y.den : ℚ) ≠ 0 := by exact_mod_cast hy
  push_cast
  rw [div_add_div _ _ hx2 hy2]
  congr 1 <;> ring

theorem PyFloat.toRat_mul (x y : PyFloat) : (x.mul y).toRat = x.toRat * y.toRat := by
  unfold PyFloat.toRat PyFloat.mul
  push_cast
  rw [div_mul_div_comm]

theorem PyFloat.div_ofNat_spec (x : PyFloat) (n : Nat) (hn : n ≠ 0) :
    (x.div (PyFloat.ofNat n)).toRat = x.toRat / n
      ∧ (x.div (PyFloat.ofNat n)).den = x.den * n := by
  unfold PyFloat.div PyFloat.ofNat
  have h1 : ¬((n : Int) = 0) := by exact_mod_cast hn
  have h2 : (0 : Int) < (n : Int) := by exact_mod_cast Nat.pos_of_ne_zero hn
  rw [if_neg h1, if_pos h2]
  constructor
  · unfold PyFloat.toRat
    simp only [Int.toNat_natCast]
    push_cast
    rw [mul_one, div_div]
  · simp [Int.toNat_natCast]

theorem PyFloat.lt_eq_false_of_le (x y : PyFloat) (hx : x.den ≠ 0) (hy : y.den ≠ 0)
    (h : y.toRat ≤ x.toRat) : PyFloat.lt x y = false := by
  unfold PyFloat.lt
  simp only [decide_eq_false_iff_not, not_lt]
  have hx2 : (0 : ℚ) < (x.den : ℚ) := by exact_mod_cast Nat.pos_of_ne_zero hx
  have hy2 : (0 : ℚ) < (y.den : ℚ) := by exact_mod_cast Nat.pos_of_ne_zero hy
  unfold PyFloat.toRat at h
  rw [div_le_div_iff hy2 hx2] at h
  exact_mod_cast h

theorem trendRate_one (it : Int × Nat × Nat) (he : it.2.2 = it.2.1)
    (hpos : 1 ≤ it.2.1) :
    (trendRate it).toRat = 1 ∧ (trendRate it).den ≠ 0 := by
  unfold trendRate
  rw [he, Nat.max_eq_right hpos]
  obtain ⟨h1, h2⟩ := PyFloat.div_ofNat_spec (PyFloat.ofNat it.2.1) it.2.1
    (by omega)
  rw [h1, h2, PyFloat.toRat_ofNat]
  refine ⟨div_self (Nat.cast_ne_zero.mpr (by omega)), ?_⟩
  rw [show (PyFloat.ofNat it.2.1).den = 1 from rfl]
  omega

theorem PyFloat.foldl_add_ones (l : List PyFloat) (acc : PyFloat)
    (hacc : acc.den ≠ 0) (h : ∀ x ∈ l, x.toRat = 1 ∧ x.den ≠ 0) :
    (l.foldl PyFloat.add acc).toRat = acc.toRat + l.length
      ∧ (l.foldl PyFloat.add acc).den ≠ 0 := by
  induction l generalizing acc with
  | nil => simpa using hacc
  | cons x xs ih =>
    simp only [List.foldl_cons, List.length_cons]
    have hx := h x (List.mem_cons_self x xs)
    have hd : (acc.add x).den ≠ 0 := by
      rw [PyFloat.den_add]
      exact Nat.mul_ne_zero hacc hx.2
    have ht : (acc.add x).toRat = acc.toRat + 1 := by
      rw [PyFloat.toRat_add acc x hacc hx.2, hx.1]
    obtain ⟨h1, h2⟩ := ih (acc.add x) hd (fun y hy => h y (List.mem_cons_of_mem x hy))
    refine ⟨?_, h2⟩
    rw [h1, ht]
    push_cast
    ring

theorem trendAvg_ones (l : List PyFloat) (hne : l ≠ [])
    (h : ∀ x ∈ l, x.toRat = 1 ∧ x.den ≠ 0) :
    (trendAvg l).toRat = 1 ∧ (trendAvg l).den ≠ 0 := by
  unfold trendAvg
  rw [if_neg (by simpa [List.isEmpty_iff] using hne)]
  have hlen : l.length ≠ 0 := by
    intro h0
    exact hne (List.length_eq_zero.mp h0)
  obtain ⟨hs1, hs2⟩ :=
    PyFloat.foldl_add_ones l (PyFloat.ofNat 0) (by decide) h
  obtain ⟨hd1, hd2⟩ := PyFloat.div_ofNat_spec (PyFloat.sum l) l.length hlen
  refine ⟨?_, ?_⟩
  · rw [hd1]
    rw [show (PyFloat.sum l).toRat = (l.length : ℚ) from by
      unfold PyFloat.sum
      rw [hs1, PyFloat.toRat_ofNat]
      push_cast
      ring]
    exact div_self (by exact_mod_cast hlen)
  · rw [hd2]
    exact Nat.mul_ne_zero hs2 hlen

theorem trendPeriodItems_all_error (logs : List EnrichedRecord) (pm : PyFloat)
    (h : ∀ l ∈ logs, isErrorLevel l.level = true) :
    ∀ it ∈ trendPeriodItems logs pm, it.2.2 = it.2.1 ∧ 1 ≤ it.2.1 := by
  intro it hit
  unfold trendPeriodItems at hit
  rw [List.mem_map] at hit
  obtain ⟨k, hk, heq⟩ := hit
  rw [← heq]
  constructor
  · show (logs.filter (fun l =>
        periodKeyOf pm l.timestamp == k && isErrorLevel l.level)).length
      = (logs.filter (fun l => periodKeyOf pm l.timestamp == k)).length
    rw [List.filter_congr (fun l hl => by rw [h l hl, Bool.and_true])]
  · show 1 ≤ (logs.filter (fun l => periodKeyOf pm l.timestamp == k)).length
    have hk2 : k ∈ distinctInOrder (logs.map (fun l => periodKeyOf pm l.timestamp)) :=
      ((stableSort_perm _ _).mem_iff).mp hk
    have hk3 : k ∈ logs.map (fun l => periodKeyOf pm l.timestamp) :=
      mem_distinctInOrder.mp hk2
    rw [List.mem_map] at hk3
    obtain ⟨l, hl, hleq⟩ := hk3
    have hmem : l ∈ logs.filter (fun l => periodKeyOf pm l.timestamp == k) := by
      rw [List.mem_filter]
      exact ⟨hl, by rw [hleq]; simp⟩
    exact List.length_pos_of_mem hmem

theorem trendDirectionOf_not_growing (items : List (Int × Nat × Nat))
    (h : ∀ it ∈ items, it.2.2 = it.2.1 ∧ 1 ≤ it.2.1) (hlen : 3 ≤ items.length) :
    trendDirectionOf items ≠ TrendDirection.growing := by
  have hones : ∀ x ∈ trendRates items, x.toRat = 1 ∧ x.den ≠ 0 := by
    intro x hx
    rw [trendRates, List.mem_map] at hx
    obtain ⟨it, hit, heq⟩ := hx
    rw [← heq]
    exact trendRate_one it (h it hit).1 (h it hit).2
  have hrlen : (trendRates items).length = items.length := by
    simp [trendRates]
  have hfh : trendFirstHalf items ≠ [] := by
    unfold trendFirstHalf
    rw [← List.length_pos, List.length_take]
    simp only [hrlen]
    omega
  have hsh : trendSecondHalf items ≠ [] := by
    unfold trendSecondHalf
    rw [← List.length_pos, List.length_drop]
    simp only [hrlen]
    omega
  have ha1 := trendAvg_ones (trendFirstHalf items) hfh
    (fun x hx => hones x (List.take_subset _ _ hx))
  have ha2 := trendAvg_ones (trendSecondHalf items) hsh
    (fun x hx => hones x (List.drop_subset _ _ hx))
  have hlt : PyFloat.lt ((trendAvg (trendFirstHalf items)).mul ⟨12, 10⟩)
      (trendAvg (trendSecondHalf items)) = false := by
    apply PyFloat.lt_eq_false_of_le
    · rw [PyFloat.den_mul]
      rw [show (⟨12, 10⟩ : PyFloat).den = 10 from rfl]
      exact Nat.mul_ne_zero ha1.2 (by omega)
    · exact ha2.2
    · rw [PyFloat.toRat_mul, ha1.1, ha2.1]
      show (1 : ℚ) ≤ 1 * PyFloat.toRat ⟨12, 10⟩
      rw [show PyFloat.toRat ⟨12, 10⟩ = 12 / 10 from rfl]
      norm_num
  unfold trendDirectionOf
  rw [hlt]
  by_cases h2 : PyFloat.lt (trendAvg (trendSecondHalf items))
      ((trendAvg (trendFirstHalf items)).mul ⟨8, 10⟩) = true
  · rw [h2]
    simp
  · rw [show PyFloat.lt (trendAvg (trendSecondHalf items))
        ((trendAvg (trendFirstHalf items)).mul ⟨8, 10⟩) = false from by
      simpa using h2]
    simp

/-- C7 amended: the claimed batch shape never yields a growing trend.
The period length is `max(60, span_seconds/100)` minutes, so a span above
100 minutes produces at most 2–3 periods, and in a batch consisting only
of ERROR/CRITICAL records every period rate is `errors/total = 1`, making
the two half-averages equal — the trend, when at least 3 periods exist,
is stable, and otherwise insufficient periods are reported.  Hence for
every all-error batch the result is never the growing report. -/
theorem c7_amended (logs : List EnrichedRecord)
    (h : ∀ l ∈ logs, isErrorLevel l.level = true) :
    (analyze_trends logs).isGrowing = false := by
  unfold analyze_trends
  by_cases h1 : logs.length < 2
  · rw [if_pos h1]
    rfl
  · rw [if_neg h1]
    by_cases h2 : trendSpanSeconds logs < 3600
    · rw [if_pos h2]
      rfl
    · rw [if_neg h2]
      unfold trendFromItems
      by_cases h3 : (trendPeriodItems logs (periodMinutes (trendSpanSeconds logs))).length < 3
      · rw [if_pos h3]
        rfl
      · rw [if_neg h3]
        have hitems := trendPeriodItems_all_error logs
          (periodMinutes (trendSpanSeconds logs)) h
        have hng := trendDirectionOf_not_growing _ hitems (Nat.le_of_not_lt h3)
        cases hdir : trendDirectionOf
            (trendPeriodItems logs (periodMinutes (trendSpanSeconds logs))) with
        | growing => exact absurd hdir hng
        | stable => simp [TrendResult.isGrowing, hdir]
        | declining => simp [TrendResult.isGrowing, hdir]

theorem c7_witness :
    (∀ l ∈ trendBatch, isErrorLevel l.level = true)
      ∧ (analyze_trends trendBatch).isGrowing = false :=
  ⟨by decide, c7_amended trendBatch (by decide)⟩

def w6canonical (t : Int) (msg : String) : CanonicalRecord :=
  { timestamp := t, level := "ERROR", source := "svc", message := msg,
    original_message := msg, pid := none, hostname := none, user := none,
    event_id := none, category := none, log_source := "Unknown", unit := none,
    computer := none }

def w6logs : List EnrichedRecord :=
  [process_log_entry (w6canonical 0 "disk failure alpha"),
   process_log_entry (w6canonical 60 "disk failure alpha"),
   process_log_entry (w6canonical 120 "timeout beta")]

theorem c6_witness :
    ((sortedErrorEntries w6logs).take 1).length
        = min 1 (errorEntries (errorLogsOf w6logs)).length
      ∧ (sortedErrorEntries w6logs).filter
            (fun e => decide (errEntryKey e = (2, 70)))
          = (errorEntries (errorLogsOf w6logs)).filter
            (fun e => decide (errEntryKey e = (2, 70))) :=
  ⟨(c6_top_errors_ranking w6logs 1).2.2.2.1,
    (c6_top_errors_ranking w6logs 1).2.2.2.2.2 (2, 70)⟩
